import Mathlib

/-!
Verification of the ArbitrageAI local-first record store and opportunity
pipeline.  The definitions below are a shallow embedding of the utility
layer of the repository:

* `src/utils/localStorage.ts`  — the Local Record Store (intents,
  executions, per-user aggregate profit, export/import, demo seeding);
* `src/utils/nearContract.ts`  — the contract service (remote/local
  reconciliation of intents and the execution orchestrator);
* `src/utils/priceFeeds.ts`    — the opportunity detector;
* `src/utils/groqAI.ts`        — the execution-priority ranker.

Numbers that the source keeps as JS numbers or numeric strings are
modelled as rationals (`ℚ`); epoch-millis timestamps as integers.
Where JS floating-point produces `Infinity` or `NaN` (the detector's
division by a zero minimum price) the embedding models the JS value
domain explicitly with `JsNumber`.  The browser `localStorage` document
store is modelled as an explicit `Store` value threaded through the
operations; `JSON.stringify`/`JSON.parse` round-tripping of well-formed
documents is modelled as the identity on the structured data.
-/

namespace ArbitrageAI

/-- Status of a stored intent, from the union type in `localStorage.ts`:
`'active' | 'paused' | 'executed'`. -/
inductive IntentStatus where
  | active
  | paused
  | executed
deriving DecidableEq, Repr

/-- Provenance tag of a stored record, from the union type
`'contract' | 'demo'` in `localStorage.ts`. -/
inductive RecordSource where
  | contract
  | demo
deriving DecidableEq, Repr

/-- The `StoredIntent` interface of `localStorage.ts`.  The numeric-string
fields `min_profit_threshold` and `created_at` are modelled as `ℚ` and
`ℤ` (the source always parses them with `parseFloat`/`parseInt`). -/
structure StoredIntent where
  id : String
  user : String
  token_pair : String
  min_profit_threshold : ℚ
  status : IntentStatus
  created_at : ℤ
  source : RecordSource
deriving DecidableEq, Repr

/-- The `StoredExecution` interface of `localStorage.ts`. -/
structure StoredExecution where
  id : String
  intent_id : String
  user : String
  token_pair : String
  price_diff : ℚ
  profit : ℚ
  gas_fees : ℚ
  tx_hash : String
  timestamp : ℤ
  near_price : ℚ
  eth_price : ℚ
  source : RecordSource
deriving DecidableEq, Repr

/-- The three `localStorage` collections managed by `LocalStorageManager`
(keys `arbitrage_ai_intents`, `arbitrage_ai_executions`,
`arbitrage_ai_profits`).  The profits record is an association list,
matching the insertion-ordered JS object `Record<string, number>`. -/
structure Store where
  intents : List StoredIntent
  executions : List StoredExecution
  profits : List (String × ℚ)
deriving DecidableEq, Repr

/-- Core of `LocalStorageManager.saveIntent`: `findIndex` on `id`, replace
in place when found, otherwise `push` at the end. -/
def upsertIntent (intent : StoredIntent) : List StoredIntent → List StoredIntent
  | [] => [intent]
  | j :: rest =>
      if j.id = intent.id then intent :: rest else j :: upsertIntent intent rest

/-- `LocalStorageManager.saveIntent`. -/
def saveIntent (intent : StoredIntent) (s : Store) : Store :=
  { s with intents := upsertIntent intent s.intents }

/-- `LocalStorageManager.getIntents(userId)`: the stored intents filtered
by user. -/
def getIntents (userId : String) (s : Store) : List StoredIntent :=
  s.intents.filter (fun i => i.user == userId)

/-- Core of `LocalStorageManager.updateIntentStatus`: mutate the status of
the first intent whose `id` matches; silently do nothing when absent. -/
def setStatusFirst (intentId : String) (status : IntentStatus) :
    List StoredIntent → List StoredIntent
  | [] => []
  | i :: rest =>
      if i.id = intentId then { i with status := status } :: rest
      else i :: setStatusFirst intentId status rest

/-- `LocalStorageManager.updateIntentStatus`. -/
def updateIntentStatus (intentId : String) (status : IntentStatus) (s : Store) : Store :=
  { s with intents := setStatusFirst intentId status s.intents }

/-- Core of `LocalStorageManager.saveExecution`'s dedup step: `findIndex`
on `id`, replace in place when found, otherwise `push` at the end. -/
def upsertExecution (e : StoredExecution) : List StoredExecution → List StoredExecution
  | [] => [e]
  | x :: rest =>
      if x.id = e.id then e :: rest else x :: upsertExecution e rest

/-- The `executions.sort((a, b) => parseInt(b.timestamp) - parseInt(a.timestamp))`
step of `saveExecution`: a stable sort, newest first. -/
def sortExecutions (l : List StoredExecution) : List StoredExecution :=
  l.mergeSort (fun a b => decide (b.timestamp ≤ a.timestamp))

/-- The `profits[userId] || 0` read used by `LocalStorageManager`. -/
def lookupProfit (userId : String) (profits : List (String × ℚ)) : ℚ :=
  match profits.find? (fun p => p.1 == userId) with
  | some p => p.2
  | none => 0

/-- JS object assignment `profits[userId] = v`: overwrite the existing key
in place, or append a new key. -/
def setProfitEntry (userId : String) (v : ℚ) : List (String × ℚ) → List (String × ℚ)
  | [] => [(userId, v)]
  | p :: rest =>
      if p.1 = userId then (userId, v) :: rest else p :: setProfitEntry userId v rest

/-- `LocalStorageManager.updateTotalProfit(userId, additionalProfit)`:
adds the increment to the stored running total. -/
def updateTotalProfit (userId : String) (additionalProfit : ℚ) (s : Store) : Store :=
  { s with profits := setProfitEntry userId (lookupProfit userId s.profits + additionalProfit) s.profits }

/-- `LocalStorageManager.saveExecution`: dedup by `id`, re-sort by
timestamp descending, then unconditionally call `updateTotalProfit`
with the execution's profit (exactly as the source does, including on
the replace branch). -/
def saveExecution (e : StoredExecution) (s : Store) : Store :=
  updateTotalProfit e.user e.profit
    { s with executions := sortExecutions (upsertExecution e s.executions) }

/-- `LocalStorageManager.getExecutions(userId)`. -/
def getExecutions (userId : String) (s : Store) : List StoredExecution :=
  s.executions.filter (fun e => e.user == userId)

/-- `LocalStorageManager.getTotalProfit(userId)`. -/
def getTotalProfit (userId : String) (s : Store) : ℚ :=
  lookupProfit userId s.profits

/-- `LocalStorageManager.clearAllData`: removes all three collections. -/
def clearAllData : Store :=
  { intents := [], executions := [], profits := [] }

/-- The document produced by `exportData` and consumed by `importData`.
Each collection is `none` when the correspondingly named field is absent
from (or null in) the parsed JSON; JS's truthiness test `if (data.intents)`
accepts any present array or object, including empty ones. -/
structure ExportDoc where
  intents : Option (List StoredIntent)
  executions : Option (List StoredExecution)
  profits : Option (List (String × ℚ))
  exportedAt : String
deriving DecidableEq, Repr

/-- `LocalStorageManager.exportData`: serializes all three collections
plus an `exportedAt` stamp (taken here as a parameter in place of
calling the clock). -/
def exportData (s : Store) (exportedAt : String) : ExportDoc :=
  { intents := some s.intents
    executions := some s.executions
    profits := some s.profits
    exportedAt := exportedAt }

/-- `LocalStorageManager.importData`: for each collection present in the
document, overwrite the stored collection wholesale; absent collections
are left untouched.  `exportedAt` is ignored. -/
def importData (doc : ExportDoc) (s : Store) : Store :=
  { intents := doc.intents.getD s.intents
    executions := doc.executions.getD s.executions
    profits := doc.profits.getD s.profits }

/-- First demo intent seeded by `generateDemoData` (`now` stands for the
`Date.now()` value read during the call). -/
def demoIntent1 (userId : String) (now : ℤ) : StoredIntent :=
  { id := "demo-intent-1-" ++ toString now
    user := userId
    token_pair := "ETH/USDC"
    min_profit_threshold := 1.5
    status := .active
    created_at := now
    source := .demo }

/-- Second demo intent seeded by `generateDemoData`. -/
def demoIntent2 (userId : String) (now : ℤ) : StoredIntent :=
  { id := "demo-intent-2-" ++ toString (now + 1)
    user := userId
    token_pair := "BTC/USDC"
    min_profit_threshold := 2.0
    status := .paused
    created_at := now - 86400000
    source := .demo }

/-- First demo execution seeded by `generateDemoData`. -/
def demoExec1 (userId : String) (now : ℤ) : StoredExecution :=
  { id := "demo-exec-1-" ++ toString now
    intent_id := (demoIntent1 userId now).id
    user := userId
    token_pair := "ETH/USDC"
    price_diff := 45.5
    profit := 36.4
    gas_fees := 0.01
    tx_hash := "demo-tx-hash-1-" ++ toString now
    timestamp := now
    near_price := 3000
    eth_price := 2954.5
    source := .demo }

/-- Second demo execution seeded by `generateDemoData`. -/
def demoExec2 (userId : String) (now : ℤ) : StoredExecution :=
  { id := "demo-exec-2-" ++ toString (now + 1)
    intent_id := (demoIntent2 userId now).id
    user := userId
    token_pair := "BTC/USDC"
    price_diff := 850
    profit := 680
    gas_fees := 0.02
    tx_hash := "demo-tx-hash-2-" ++ toString (now + 1)
    timestamp := now - 3600000
    near_price := 45000
    eth_price := 44150
    source := .demo }

/-- `LocalStorageManager.generateDemoData(userId)`: when the user has no
stored intents, save two demo intents and two demo executions (via
`saveIntent` and `saveExecution`, so the executions' profits flow into
the aggregate); otherwise do nothing. -/
def generateDemoData (userId : String) (now : ℤ) (s : Store) : Store :=
  if (getIntents userId s).length = 0 then
    saveExecution (demoExec2 userId now)
      (saveExecution (demoExec1 userId now)
        (saveIntent (demoIntent2 userId now)
          (saveIntent (demoIntent1 userId now) s)))
  else s

/-- An intent record returned by the contract view method
`get_user_intents` (the remote ledger's shape, before the local `source`
tag is attached during sync). -/
structure RemoteIntent where
  id : String
  user : String
  token_pair : String
  min_profit_threshold : ℚ
  status : IntentStatus
  created_at : ℤ
deriving DecidableEq, Repr

/-- The natural-key match used by `NearContractService.getUserIntents`:
a local intent matches a contract intent when `token_pair` and
`min_profit_threshold` agree. -/
def matchesKey (c : RemoteIntent) (l : StoredIntent) : Bool :=
  l.token_pair == c.token_pair && decide (l.min_profit_threshold = c.min_profit_threshold)

/-- The synced record built by `getUserIntents` for an unmatched contract
intent: the remote fields, tagged `source: 'contract'`. -/
def toSyncedIntent (c : RemoteIntent) : StoredIntent :=
  { id := c.id
    user := c.user
    token_pair := c.token_pair
    min_profit_threshold := c.min_profit_threshold
    status := c.status
    created_at := c.created_at
    source := .contract }

/-- One iteration of the `contractIntents.forEach` loop in
`NearContractService.getUserIntents`: the accumulator carries the store
and the in-memory `localIntents` array; an unmatched contract intent is
saved to the store and pushed onto the array. -/
def syncIntentsStep (acc : Store × List StoredIntent) (c : RemoteIntent) :
    Store × List StoredIntent :=
  if acc.2.any (matchesKey c) then acc
  else (saveIntent (toSyncedIntent c) acc.1, acc.2 ++ [toSyncedIntent c])

/-- The reconciliation core of `NearContractService.getUserIntents`:
starting from the user's local intents, merge each contract intent that
has no local natural-key match.  Returns the updated store and the
merged in-memory list (before the display sort). -/
def syncIntents (userId : String) (remote : List RemoteIntent) (s : Store) :
    Store × List StoredIntent :=
  remote.foldl syncIntentsStep (s, getIntents userId s)

/-- `NearContractService.getUserIntents`: reconcile, then return the
merged list sorted by `created_at` descending. -/
def getUserIntents (userId : String) (remote : List RemoteIntent) (s : Store) :
    Store × List StoredIntent :=
  let r := syncIntents userId remote s
  (r.1, r.2.mergeSort (fun a b => decide (b.created_at ≤ a.created_at)))

/-- Outcome of the best-effort remote call inside
`NearContractService.executeArbitrage`: no contract configured, the
contract call threw, or it succeeded (possibly without a transaction
hash in the response). -/
inductive RemoteOutcome where
  | noContract
  | contractFailure
  | contractSuccess (txHash : Option String)
deriving DecidableEq, Repr

/-- The success value returned by `executeArbitrage`
(`{success: true, executionId, profit, message, execution}`; the message
is determined by the provenance tag, which we keep directly). -/
structure ExecutionResult where
  executionId : String
  profit : ℚ
  source : RecordSource
  execution : StoredExecution
deriving DecidableEq, Repr

/-- Body of `NearContractService.executeArbitrage` for a signed-in user:
compute the local profit estimate `|nearPrice − ethPrice| × 0.8`, build
the execution record (`token_pair` is hard-coded to `'ETH/USDC'` in the
source), attempt the remote call—on failure or with no contract the
record is tagged `'demo'` and keeps the locally generated `tx-` hash—then
always `saveExecution` and `updateIntentStatus(intentId, 'executed')`.
`now` stands for the `Date.now()` reads and `execId` for the generated
`execution-...` identifier. -/
def executeArbitrageCore (userId intentId : String) (nearPrice ethPrice : ℚ)
    (outcome : RemoteOutcome) (now : ℤ) (execId : String) (s : Store) :
    Store × ExecutionResult :=
  let profit := |nearPrice - ethPrice| * 0.8
  let localTx := "tx-" ++ toString now
  let txAndSource : String × RecordSource :=
    match outcome with
    | .noContract => (localTx, .demo)
    | .contractFailure => (localTx, .demo)
    | .contractSuccess h => (h.getD localTx, .contract)
  let e : StoredExecution :=
    { id := execId
      intent_id := intentId
      user := userId
      token_pair := "ETH/USDC"
      price_diff := |nearPrice - ethPrice|
      profit := profit
      gas_fees := 0.01
      tx_hash := txAndSource.1
      timestamp := now
      near_price := nearPrice
      eth_price := ethPrice
      source := txAndSource.2 }
  let s1 := saveExecution e s
  let s2 := updateIntentStatus intentId .executed s1
  (s2, { executionId := execId, profit := profit, source := txAndSource.2, execution := e })

/-- `NearContractService.executeArbitrage`: the only throwing path is an
absent account id (`'User not signed in'`, rethrown by the catch block as
`'Failed to execute arbitrage'`); with a signed-in user the operation
always succeeds. -/
def executeArbitrage (accountId : Option String) (intentId : String)
    (nearPrice ethPrice : ℚ) (outcome : RemoteOutcome) (now : ℤ) (execId : String)
    (s : Store) : Except String (Store × ExecutionResult) :=
  match accountId with
  | none => .error "Failed to execute arbitrage"
  | some userId => .ok (executeArbitrageCore userId intentId nearPrice ethPrice outcome now execId s)

/-- The value domain of a JS number as far as the detector's arithmetic
can observe it: a finite value, an infinity, or NaN.  Divisions by zero
in `priceFeeds.ts` produce `Infinity`/`NaN` instead of throwing. -/
inductive JsNumber where
  | val (q : ℚ)
  | posInf
  | negInf
  | nan
deriving DecidableEq, Repr

/-- JS division: finite for a nonzero divisor; `x / 0` is `Infinity`,
`-Infinity`, or `NaN` according to the sign of `x`. -/
def jsDiv (x y : ℚ) : JsNumber :=
  if y = 0 then
    if 0 < x then .posInf else if x < 0 then .negInf else .nan
  else .val (x / y)

/-- JS multiplication of the division result by the positive constant 100. -/
def jsMul100 : JsNumber → JsNumber
  | .val q => .val (q * 100)
  | .posInf => .posInf
  | .negInf => .negInf
  | .nan => .nan

/-- JS strict `>` against a finite constant: true for `Infinity`, false
for `-Infinity` and `NaN`. -/
def jsGt (x : JsNumber) (c : ℚ) : Bool :=
  match x with
  | .val q => decide (c < q)
  | .posInf => true
  | .negInf => false
  | .nan => false

/-- The `profitPercentage = (priceDiff / Math.min(nearPrice, ethPrice)) * 100`
computation in `PriceFeedManager.detectArbitrageOpportunities`, under JS
number semantics. -/
def profitPercentage (nearPrice ethPrice : ℚ) : JsNumber :=
  jsMul100 (jsDiv |nearPrice - ethPrice| (min nearPrice ethPrice))

/-- The emission test of `PriceFeedManager.detectArbitrageOpportunities`:
`if (profitPercentage > 0.5)`. -/
def emitsOpportunity (nearPrice ethPrice : ℚ) : Bool :=
  jsGt (profitPercentage nearPrice ethPrice) 0.5

/-- The per-symbol price inputs of one detector iteration (the pair name
together with the two venue prices obtained for its base token). -/
structure PairQuote where
  pair : String
  nearPrice : ℚ
  ethPrice : ℚ
deriving DecidableEq, Repr

/-- The `ArbitrageOpportunity` record built by `priceFeeds.ts` (`timestamp`
omitted: it is a clock read that no claim concerns). -/
structure Opportunity where
  tokenPair : String
  nearPrice : ℚ
  ethPrice : ℚ
  priceDiff : ℚ
  profitPct : JsNumber
deriving DecidableEq, Repr

/-- Comparator order for the final
`opportunities.sort((a, b) => b.profitPercentage - a.profitPercentage)`:
`a` may precede `b` when `b`'s percentage is at most `a`'s.  Comparisons
involving NaN are unspecified by the JS sort contract; emitted
opportunities never carry NaN (NaN fails the emission test), so the
arbitrary total choice below is unobservable. -/
def jsLeNum : JsNumber → JsNumber → Bool
  | .val p, .val q => decide (p ≤ q)
  | .val _, .posInf => true
  | .val _, _ => false
  | .posInf, .posInf => true
  | .posInf, _ => false
  | .negInf, _ => true
  | .nan, _ => true

/-- `PriceFeedManager.detectArbitrageOpportunities`, per pair: compute
the price difference and profit percentage from the two venue prices,
emit a candidate only when the percentage exceeds 0.5, and sort the
emitted candidates by profit percentage descending. -/
def detectArbitrageOpportunities (quotes : List PairQuote) : List Opportunity :=
  (quotes.filterMap fun q =>
      if emitsOpportunity q.nearPrice q.ethPrice then
        some { tokenPair := q.pair
               nearPrice := q.nearPrice
               ethPrice := q.ethPrice
               priceDiff := |q.nearPrice - q.ethPrice|
               profitPct := profitPercentage q.nearPrice q.ethPrice }
      else none).mergeSort (fun a b => jsLeNum b.profitPct a.profitPct)

/-- Risk classification from the advisory result (`groqAI.ts`). -/
inductive RiskLevel where
  | low
  | medium
  | high
deriving DecidableEq, Repr

/-- Discrete execution priority assigned by the ranker (`groqAI.ts`). -/
inductive ExecutionPriority where
  | high
  | medium
  | low
deriving DecidableEq, Repr

/-- The advisory fields consumed by the priority ranker. -/
structure AIAnalysis where
  confidence : ℚ
  riskLevel : RiskLevel
deriving DecidableEq, Repr

/-- `GroqAIService.calculateExecutionPriority`, verbatim from the source's
two-branch conditional. -/
def calculateExecutionPriority (profitPct : ℚ) (aiAnalysis : AIAnalysis) :
    ExecutionPriority :=
  if profitPct > 2.5 ∧ aiAnalysis.confidence > 85 ∧ aiAnalysis.riskLevel = .low then
    .high
  else if profitPct > 1.2 ∧ aiAnalysis.confidence > 70 then
    .medium
  else
    .low

/-! ### Helper lemmas about the store operations -/

theorem upsertIntent_of_fresh (i : StoredIntent) (l : List StoredIntent)
    (h : ∀ j ∈ l, j.id ≠ i.id) : upsertIntent i l = l ++ [i] := by
  induction l with
  | nil => rfl
  | cons j rest ih =>
      rw [upsertIntent, if_neg (h j (List.mem_cons_self j rest)), List.cons_append,
        ih (fun x hx => h x (List.mem_cons_of_mem j hx))]

theorem upsertExecution_of_fresh (e : StoredExecution) (l : List StoredExecution)
    (h : ∀ x ∈ l, x.id ≠ e.id) : upsertExecution e l = l ++ [e] := by
  induction l with
  | nil => rfl
  | cons x rest ih =>
      rw [upsertExecution, if_neg (h x (List.mem_cons_self x rest)), List.cons_append,
        ih (fun y hy => h y (List.mem_cons_of_mem x hy))]

theorem sortExecutions_perm (l : List StoredExecution) : (sortExecutions l).Perm l :=
  List.mergeSort_perm l _

theorem intents_saveIntent_of_fresh (i : StoredIntent) (s : Store)
    (h : ∀ j ∈ s.intents, j.id ≠ i.id) :
    (saveIntent i s).intents = s.intents ++ [i] := by
  simp [saveIntent, upsertIntent_of_fresh i s.intents h]

theorem getIntents_saveIntent_of_fresh (userId : String) (i : StoredIntent) (s : Store)
    (hf : ∀ j ∈ s.intents, j.id ≠ i.id) (hu : i.user = userId) :
    getIntents userId (saveIntent i s) = getIntents userId s ++ [i] := by
  simp [getIntents, saveIntent, upsertIntent_of_fresh i s.intents hf,
    List.filter_append, hu]

theorem lookupProfit_setProfitEntry_self (userId : String) (v : ℚ)
    (l : List (String × ℚ)) : lookupProfit userId (setProfitEntry userId v l) = v := by
  induction l with
  | nil => simp [setProfitEntry, lookupProfit, List.find?]
  | cons p rest ih =>
      by_cases h : p.1 = userId
      · simp [setProfitEntry, h, lookupProfit, List.find?]
      · simp only [setProfitEntry, if_neg h]
        rw [lookupProfit, List.find?]
        have : (p.1 == userId) = false := by simp [h]
        rw [this]
        exact ih

theorem getTotalProfit_updateTotalProfit_self (userId : String) (q : ℚ) (s : Store) :
    getTotalProfit userId (updateTotalProfit userId q s) = getTotalProfit userId s + q := by
  simp [getTotalProfit, updateTotalProfit, lookupProfit_setProfitEntry_self]

theorem profits_saveIntent (i : StoredIntent) (s : Store) :
    (saveIntent i s).profits = s.profits := rfl

theorem getTotalProfit_saveIntent (userId : String) (i : StoredIntent) (s : Store) :
    getTotalProfit userId (saveIntent i s) = getTotalProfit userId s := rfl

theorem getTotalProfit_saveExecution_self (e : StoredExecution) (s : Store) :
    getTotalProfit e.user (saveExecution e s) = getTotalProfit e.user s + e.profit := by
  rw [saveExecution, getTotalProfit_updateTotalProfit_self]
  rfl

theorem intents_saveExecution (e : StoredExecution) (s : Store) :
    (saveExecution e s).intents = s.intents := rfl

theorem executions_saveExecution_of_fresh (e : StoredExecution) (s : Store)
    (h : ∀ x ∈ s.executions, x.id ≠ e.id) :
    ((saveExecution e s).executions).Perm (s.executions ++ [e]) := by
  simpa [saveExecution, updateTotalProfit, upsertExecution_of_fresh e s.executions h]
    using sortExecutions_perm (s.executions ++ [e])

theorem length_executions_saveExecution_of_fresh (e : StoredExecution) (s : Store)
    (h : ∀ x ∈ s.executions, x.id ≠ e.id) :
    (saveExecution e s).executions.length = s.executions.length + 1 := by
  have := (executions_saveExecution_of_fresh e s h).length_eq
  simpa using this

theorem mem_executions_saveExecution (e : StoredExecution) (s : Store)
    (h : ∀ x ∈ s.executions, x.id ≠ e.id) (x : StoredExecution)
    (hx : x ∈ (saveExecution e s).executions) : x ∈ s.executions ∨ x = e := by
  have hmem := (executions_saveExecution_of_fresh e s h).mem_iff.mp hx
  simpa using hmem

theorem setStatusFirst_of_forall_ne (intentId : String) (status : IntentStatus)
    (l : List StoredIntent) (h : ∀ i ∈ l, i.id ≠ intentId) :
    setStatusFirst intentId status l = l := by
  induction l with
  | nil => rfl
  | cons i rest ih =>
      rw [setStatusFirst, if_neg (h i (List.mem_cons_self i rest)),
        ih (fun x hx => h x (List.mem_cons_of_mem i hx))]

theorem setStatusFirst_exists (intentId : String) (status : IntentStatus)
    (l : List StoredIntent) (h : ∃ i ∈ l, i.id = intentId) :
    ∃ j ∈ setStatusFirst intentId status l, j.id = intentId ∧ j.status = status := by
  induction l with
  | nil => simp at h
  | cons i rest ih =>
      by_cases hid : i.id = intentId
      · refine ⟨{ i with status := status }, ?_, hid, rfl⟩
        rw [setStatusFirst, if_pos hid]
        exact List.mem_cons_self _ _
      · obtain ⟨w, hw, hwid⟩ := h
        rcases List.mem_cons.mp hw with rfl | hwrest
        · exact absurd hwid hid
        · obtain ⟨j, hj, hjprop⟩ := ih ⟨w, hwrest, hwid⟩
          refine ⟨j, ?_, hjprop⟩
          rw [setStatusFirst, if_neg hid]
          exact List.mem_cons_of_mem i hj

theorem setStatusFirst_all (intentId : String) (status : IntentStatus)
    (l : List StoredIntent) (hnodup : (l.map StoredIntent.id).Nodup) :
    ∀ j ∈ setStatusFirst intentId status l, j.id = intentId → j.status = status := by
  induction l with
  | nil => simp [setStatusFirst]
  | cons i rest ih =>
      rw [List.map_cons, List.nodup_cons] at hnodup
      by_cases hid : i.id = intentId
      · rw [setStatusFirst, if_pos hid]
        intro j hj hjid
        rcases List.mem_cons.mp hj with rfl | hjrest
        · rfl
        · exact absurd (List.mem_map_of_mem StoredIntent.id hjrest)
            (by rw [hjid, ← hid] at *; exact fun hm => hnodup.1 (hjid ▸ hid ▸ hm))
      · rw [setStatusFirst, if_neg hid]
        intro j hj hjid
        rcases List.mem_cons.mp hj with rfl | hjrest
        · exact absurd hjid hid
        · exact ih hnodup.2 j hjrest hjid

/-! ### Claim C1 -/

/-- Concrete execution record used to exhibit the double-count in
`saveExecution`. -/
def dupExec : StoredExecution :=
  { id := "exec-dup"
    intent_id := "intent-1"
    user := "alice"
    token_pair := "ETH/USDC"
    price_diff := 45.5
    profit := 36.4
    gas_fees := 0.01
    tx_hash := "tx-1"
    timestamp := 0
    near_price := 3000
    eth_price := 2954.5
    source := .demo }

/-- Claim C1: calling `saveExecution` twice with the same execution (profit
36.40) leaves exactly one stored record with its id, but the aggregate
profit is incremented on BOTH calls, ending at 72.80 instead of 36.40 —
`updateTotalProfit` runs unconditionally, even on the replace branch, so
the append is not idempotent as the specification requires. -/
theorem saveExecution_duplicate_double_counts :
    ((saveExecution dupExec (saveExecution dupExec clearAllData)).executions.countP
        (fun e => e.id == "exec-dup")) = 1
    ∧ getTotalProfit "alice" (saveExecution dupExec (saveExecution dupExec clearAllData))
        = 72.8 := by
  constructor
  · norm_num [saveExecution, clearAllData, dupExec, updateTotalProfit, upsertExecution,
      sortExecutions, List.mergeSort, List.countP_cons]
  · norm_num [saveExecution, clearAllData, dupExec, updateTotalProfit, upsertExecution,
      sortExecutions, List.mergeSort, getTotalProfit, lookupProfit, setProfitEntry,
      List.find?]

/-! ### Claim C4 -/

/-- Counterexample to claim C4: on an empty store (so no Active Intent with
id `intent-404` exists), `executeArbitrage` succeeds instead of failing
with `IntentNotFound`. -/
theorem executeArbitrage_missing_intent_cex :
    clearAllData.intents = []
    ∧ executeArbitrage (some "alice") "intent-404" 3000 2950 .noContract 0 "exec-1" clearAllData
        = .ok (executeArbitrageCore "alice" "intent-404" 3000 2950 .noContract 0 "exec-1" clearAllData) :=
  ⟨rfl, rfl⟩

/-- Claim C4 (amended): `executeArbitrage` performs no intent lookup at
all.  When no stored intent has the requested id the call still succeeds
and the intent collection is left unchanged (the status update silently
matches nothing); and when a matching intent does exist — even a Paused
one — its status is set directly to Executed. -/
theorem executeArbitrage_no_intent_lookup :
    (∀ (userId intentId : String) (nearPrice ethPrice : ℚ) (outcome : RemoteOutcome)
        (now : ℤ) (execId : String) (s : Store),
        (∀ i ∈ s.intents, i.id ≠ intentId) →
        executeArbitrage (some userId) intentId nearPrice ethPrice outcome now execId s
          = .ok (executeArbitrageCore userId intentId nearPrice ethPrice outcome now execId s)
        ∧ (executeArbitrageCore userId intentId nearPrice ethPrice outcome now execId s).1.intents
            = s.intents)
    ∧ (∀ (userId intentId : String) (nearPrice ethPrice : ℚ) (outcome : RemoteOutcome)
        (now : ℤ) (execId : String) (s : Store) (i : StoredIntent),
        i ∈ s.intents → i.id = intentId → i.status = .paused →
        ∃ j ∈ (executeArbitrageCore userId intentId nearPrice ethPrice outcome now execId s).1.intents,
          j.id = intentId ∧ j.status = .executed) := by
  constructor
  · intro userId intentId nearPrice ethPrice outcome now execId s h
    refine ⟨rfl, ?_⟩
    show (updateIntentStatus intentId .executed _).intents = s.intents
    rw [updateIntentStatus]
    exact setStatusFirst_of_forall_ne intentId .executed s.intents h
  · intro userId intentId nearPrice ethPrice outcome now execId s i hi hid _
    show ∃ j ∈ (updateIntentStatus intentId .executed _).intents, _
    rw [updateIntentStatus]
    exact setStatusFirst_exists intentId .executed s.intents ⟨i, hi, hid⟩

/-- Witness for the amended claim C4 at a concrete input. -/
theorem executeArbitrage_no_intent_lookup_witness :
    (∀ i ∈ clearAllData.intents, i.id ≠ "intent-404")
    ∧ (executeArbitrage (some "alice") "intent-404" 3000 2950 .contractFailure 7 "exec-9" clearAllData
        = .ok (executeArbitrageCore "alice" "intent-404" 3000 2950 .contractFailure 7 "exec-9" clearAllData)
      ∧ (executeArbitrageCore "alice" "intent-404" 3000 2950 .contractFailure 7 "exec-9" clearAllData).1.intents
          = clearAllData.intents) :=
  ⟨by simp [clearAllData],
   executeArbitrage_no_intent_lookup.1 "alice" "intent-404" 3000 2950 .contractFailure 7
     "exec-9" clearAllData (by simp [clearAllData])⟩

/-! ### Claim C5 -/

/-- Claim C5: with positive prices the detector emits a candidate exactly
when the relative profit percentage strictly exceeds the threshold 0.5;
at venue prices 100 and 100.49 it emits nothing, at 100 and 100.51 it
emits exactly one candidate. -/
theorem detectArbitrage_threshold_boundary :
    (∀ nearPrice ethPrice : ℚ, 0 < min nearPrice ethPrice →
        (emitsOpportunity nearPrice ethPrice = true ↔
          0.5 < |nearPrice - ethPrice| / min nearPrice ethPrice * 100))
    ∧ detectArbitrageOpportunities [⟨"ETH/USDC", 100, 100.49⟩] = []
    ∧ (detectArbitrageOpportunities [⟨"ETH/USDC", 100, 100.51⟩]).length = 1 := by
  refine ⟨?_, ?_, ?_⟩
  · intro a b h
    rw [emitsOpportunity, profitPercentage, jsDiv, if_neg (ne_of_gt h)]
    simp [jsMul100, jsGt]
  · have he : emitsOpportunity 100 100.49 = false := by
      have habs : |(100 : ℚ) - 100.49| = 0.49 := by
        rw [abs_sub_comm, abs_of_nonneg] <;> norm_num
      have hmin : min (100 : ℚ) 100.49 = 100 := by norm_num [min_def]
      rw [emitsOpportunity, profitPercentage, habs, hmin, jsDiv,
        if_neg (by norm_num : (100 : ℚ) ≠ 0)]
      norm_num [jsMul100, jsGt]
    simp [detectArbitrageOpportunities, List.filterMap_cons, he, List.mergeSort]
  · have he : emitsOpportunity 100 100.51 = true := by
      have habs : |(100 : ℚ) - 100.51| = 0.51 := by
        rw [abs_sub_comm, abs_of_nonneg] <;> norm_num
      have hmin : min (100 : ℚ) 100.51 = 100 := by norm_num [min_def]
      rw [emitsOpportunity, profitPercentage, habs, hmin, jsDiv,
        if_neg (by norm_num : (100 : ℚ) ≠ 0)]
      norm_num [jsMul100, jsGt]
    simp [detectArbitrageOpportunities, List.filterMap_cons, he, List.mergeSort]

/-- Witness for claim C5's threshold equivalence at a concrete input. -/
theorem detectArbitrage_threshold_boundary_witness :
    0 < min (100 : ℚ) 100.51
    ∧ (emitsOpportunity 100 100.51 = true ↔
        (0.5 : ℚ) < |(100 : ℚ) - 100.51| / min (100 : ℚ) 100.51 * 100) :=
  ⟨by norm_num, detectArbitrage_threshold_boundary.1 100 100.51 (by norm_num)⟩

/-! ### Claim C6 -/

/-- Counterexample to claim C6: with venue prices 0 and 5 the minimum is
zero, yet the detector emits a candidate (the JS division yields
`Infinity`, which passes the `> 0.5` test) instead of skipping the
symbol. -/
theorem detect_zero_price_cex :
    min (0 : ℚ) 5 = 0
    ∧ (detectArbitrageOpportunities [⟨"ETH/USDC", 0, 5⟩]).length = 1 := by
  constructor
  · norm_num
  · have hmin : min (0 : ℚ) 5 = 0 := by norm_num
    have habs : |(0 : ℚ) - 5| = 5 := by norm_num
    norm_num [detectArbitrageOpportunities, List.filterMap, emitsOpportunity,
      profitPercentage, hmin, habs, jsDiv, jsMul100, jsGt, List.mergeSort]

/-- Claim C6 (amended): when the minimum venue price is zero the detector
raises no error (the JS arithmetic is total); it skips the symbol only
when the two prices are equal (the profit percentage is then NaN, which
fails the threshold test), and when they differ it emits a candidate
whose profit percentage is `Infinity`. -/
theorem detect_zero_price_no_throw (nearPrice ethPrice : ℚ)
    (hmin : min nearPrice ethPrice = 0) :
    emitsOpportunity nearPrice ethPrice = true ↔ nearPrice ≠ ethPrice := by
  by_cases hab : nearPrice = ethPrice
  · subst hab
    have h0 : nearPrice = 0 := by simpa using hmin
    subst h0
    simp [emitsOpportunity, profitPercentage, jsDiv, jsMul100, jsGt]
  · have h1 : 0 < |nearPrice - ethPrice| := abs_pos.mpr (sub_ne_zero.mpr hab)
    simp [emitsOpportunity, profitPercentage, jsDiv, hmin, h1, jsMul100, jsGt, hab]

/-- Witness for the amended claim C6 at a concrete input. -/
theorem detect_zero_price_no_throw_witness :
    min (0 : ℚ) 5 = 0 ∧ (emitsOpportunity 0 5 = true ↔ (0 : ℚ) ≠ 5) :=
  ⟨by norm_num, detect_zero_price_no_throw 0 5 (by norm_num)⟩

/-! ### Claim C7 -/

/-- Claim C7: `calculateExecutionPriority` is exactly the stated pure
function — HIGH iff profit > 2.5 and confidence > 85 and risk LOW;
otherwise MEDIUM iff profit > 1.2 and confidence > 70; otherwise LOW. -/
theorem calculateExecutionPriority_spec (profitPct : ℚ) (a : AIAnalysis) :
    (calculateExecutionPriority profitPct a = .high ↔
        profitPct > 2.5 ∧ a.confidence > 85 ∧ a.riskLevel = .low)
    ∧ (calculateExecutionPriority profitPct a = .medium ↔
        ¬(profitPct > 2.5 ∧ a.confidence > 85 ∧ a.riskLevel = .low)
        ∧ profitPct > 1.2 ∧ a.confidence > 70)
    ∧ (calculateExecutionPriority profitPct a = .low ↔
        ¬(profitPct > 2.5 ∧ a.confidence > 85 ∧ a.riskLevel = .low)
        ∧ ¬(profitPct > 1.2 ∧ a.confidence > 70)) := by
  unfold calculateExecutionPriority
  split_ifs with h1 h2 <;> simp_all

/-! ### Claim C8 -/

/-- Claim C8: the orchestrator's locally recorded profit is
`|venueAPrice − venueBPrice| × 0.8` for every input and every remote
outcome; in particular prices 3000 and 2954.50 give 36.40. -/
theorem executeArbitrage_profit_deterministic :
    (∀ (userId intentId : String) (nearPrice ethPrice : ℚ) (outcome : RemoteOutcome)
        (now : ℤ) (execId : String) (s : Store),
        (executeArbitrageCore userId intentId nearPrice ethPrice outcome now execId s).2.profit
          = |nearPrice - ethPrice| * 0.8)
    ∧ (executeArbitrageCore "alice" "intent-1" 3000 2954.5 .noContract 0 "exec-1"
        clearAllData).2.profit = 36.4 := by
  constructor
  · intro userId intentId nearPrice ethPrice outcome now execId s
    rfl
  · show |(3000 : ℚ) - 2954.5| * 0.8 = 36.4
    rw [show (3000 : ℚ) - 2954.5 = 45.5 by norm_num,
      abs_of_nonneg (by norm_num : (0 : ℚ) ≤ 45.5)]
    norm_num

/-! ### Claim C9 -/

/-- Claim C9: exporting the store, clearing it, then importing the export
reproduces the original store exactly (hence in particular the same
intents, executions, and per-user aggregate profit values). -/
theorem exportData_importData_roundtrip (s : Store) (exportedAt : String) :
    importData (exportData s exportedAt) clearAllData = s
    ∧ ∀ u, getTotalProfit u (importData (exportData s exportedAt) clearAllData)
        = getTotalProfit u s :=
  ⟨rfl, fun _ => rfl⟩

/-! ### Claim C3 -/

/-- Claim C3: for a signed-in user, when the remote call fails or no
contract is configured, `executeArbitrage` still succeeds, the result
carries demo provenance, exactly one execution record is persisted, and
the referenced intent's status becomes executed. -/
theorem executeArbitrage_degraded_mode
    (userId intentId : String) (nearPrice ethPrice : ℚ) (outcome : RemoteOutcome)
    (now : ℤ) (execId : String) (s : Store)
    (houtcome : outcome = .noContract ∨ outcome = .contractFailure)
    (hfresh : ∀ x ∈ s.executions, x.id ≠ execId)
    (hintent : ∃ i ∈ s.intents, i.id = intentId)
    (hids : (s.intents.map StoredIntent.id).Nodup) :
    executeArbitrage (some userId) intentId nearPrice ethPrice outcome now execId s
      = .ok (executeArbitrageCore userId intentId nearPrice ethPrice outcome now execId s)
    ∧ (executeArbitrageCore userId intentId nearPrice ethPrice outcome now execId s).2.source
        = .demo
    ∧ (executeArbitrageCore userId intentId nearPrice ethPrice outcome now execId
          s).1.executions.length = s.executions.length + 1
    ∧ (executeArbitrageCore userId intentId nearPrice ethPrice outcome now execId
          s).1.executions.countP (fun x => x.id == execId) = 1
    ∧ (∀ j ∈ (executeArbitrageCore userId intentId nearPrice ethPrice outcome now execId
          s).1.intents, j.id = intentId → j.status = .executed)
    ∧ ∃ j ∈ (executeArbitrageCore userId intentId nearPrice ethPrice outcome now execId
          s).1.intents, j.id = intentId ∧ j.status = .executed := by
  have hid : (executeArbitrageCore userId intentId nearPrice ethPrice outcome now execId
      s).2.execution.id = execId := rfl
  set e := (executeArbitrageCore userId intentId nearPrice ethPrice outcome now execId
    s).2.execution with he
  have hstore : (executeArbitrageCore userId intentId nearPrice ethPrice outcome now execId s).1
      = updateIntentStatus intentId .executed (saveExecution e s) := rfl
  have hfresh' : ∀ x ∈ s.executions, x.id ≠ e.id := by
    rw [hid]; exact hfresh
  refine ⟨rfl, ?_, ?_, ?_, ?_, ?_⟩
  · rcases houtcome with h | h <;> subst h <;> rfl
  · rw [hstore]
    show (saveExecution e s).executions.length = _
    exact length_executions_saveExecution_of_fresh e s hfresh'
  · rw [hstore]
    show ((saveExecution e s).executions.countP _) = 1
    rw [List.Perm.countP_eq _ (executions_saveExecution_of_fresh e s hfresh'),
      List.countP_append]
    have h0 : s.executions.countP (fun x => x.id == execId) = 0 := by
      rw [List.countP_eq_zero]
      intro x hx
      simpa using hfresh x hx
    rw [h0]
    simp [hid]
  · rw [hstore]
    show ∀ j ∈ setStatusFirst intentId .executed s.intents, _
    exact setStatusFirst_all intentId .executed s.intents hids
  · rw [hstore]
    show ∃ j ∈ setStatusFirst intentId .executed s.intents, _
    exact setStatusFirst_exists intentId .executed s.intents hintent

/-- Concrete single-intent store used by the witness for claim C3. -/
def c3Store : Store :=
  { intents := [⟨"intent-1", "alice", "ETH/USDC", 1.5, .active, 0, .demo⟩]
    executions := []
    profits := [] }

/-- Witness for claim C3 at a concrete input. -/
theorem executeArbitrage_degraded_mode_witness :
    ((RemoteOutcome.noContract = RemoteOutcome.noContract
        ∨ RemoteOutcome.noContract = RemoteOutcome.contractFailure)
      ∧ (∀ x ∈ c3Store.executions, x.id ≠ "exec-1")
      ∧ (∃ i ∈ c3Store.intents, i.id = "intent-1")
      ∧ (c3Store.intents.map StoredIntent.id).Nodup)
    ∧ (executeArbitrage (some "alice") "intent-1" 3000 2950 .noContract 0 "exec-1" c3Store
        = .ok (executeArbitrageCore "alice" "intent-1" 3000 2950 .noContract 0 "exec-1" c3Store)
      ∧ (executeArbitrageCore "alice" "intent-1" 3000 2950 .noContract 0 "exec-1" c3Store).2.source
          = .demo
      ∧ (executeArbitrageCore "alice" "intent-1" 3000 2950 .noContract 0 "exec-1"
            c3Store).1.executions.length = c3Store.executions.length + 1
      ∧ (executeArbitrageCore "alice" "intent-1" 3000 2950 .noContract 0 "exec-1"
            c3Store).1.executions.countP (fun x => x.id == "exec-1") = 1
      ∧ (∀ j ∈ (executeArbitrageCore "alice" "intent-1" 3000 2950 .noContract 0 "exec-1"
            c3Store).1.intents, j.id = "intent-1" → j.status = .executed)
      ∧ ∃ j ∈ (executeArbitrageCore "alice" "intent-1" 3000 2950 .noContract 0 "exec-1"
            c3Store).1.intents, j.id = "intent-1" ∧ j.status = .executed) :=
  ⟨⟨Or.inl rfl, by simp [c3Store], by simp [c3Store], by simp [c3Store]⟩,
   executeArbitrage_degraded_mode "alice" "intent-1" 3000 2950 .noContract 0 "exec-1" c3Store
     (Or.inl rfl) (by simp [c3Store]) (by simp [c3Store]) (by simp [c3Store])⟩

/-! ### Claim C10 -/

theorem string_append_ne (a b x y : String) (hlen : a.length = b.length) (h : a ≠ b) :
    a ++ x ≠ b ++ y := by
  intro hc
  apply h
  have hdata : a.data ++ x.data = b.data ++ y.data := by
    rw [← String.data_append, ← String.data_append, hc]
  exact congrArg String.mk (List.append_inj hdata hlen).1

theorem demoIntent_ids_ne (userId : String) (now : ℤ) :
    (demoIntent1 userId now).id ≠ (demoIntent2 userId now).id :=
  string_append_ne "demo-intent-1-" "demo-intent-2-" _ _ rfl (by decide)

theorem demoExec_ids_ne (userId : String) (now : ℤ) :
    (demoExec1 userId now).id ≠ (demoExec2 userId now).id :=
  string_append_ne "demo-exec-1-" "demo-exec-2-" _ _ rfl (by decide)

theorem generateDemoData_seeds (userId : String) (now : ℤ) (s : Store)
    (hifresh : ∀ i ∈ s.intents,
        i.id ≠ (demoIntent1 userId now).id ∧ i.id ≠ (demoIntent2 userId now).id)
    (hefresh : ∀ e ∈ s.executions,
        e.id ≠ (demoExec1 userId now).id ∧ e.id ≠ (demoExec2 userId now).id)
    (h0 : (getIntents userId s).length = 0) :
    getIntents userId (generateDemoData userId now s)
      = [demoIntent1 userId now, demoIntent2 userId now]
    ∧ (generateDemoData userId now s).executions.length = s.executions.length + 2
    ∧ getTotalProfit userId (generateDemoData userId now s)
        = getTotalProfit userId s + 716.4 := by
  have hempty : getIntents userId s = [] := List.length_eq_zero.mp h0
  have hgen : generateDemoData userId now s
      = saveExecution (demoExec2 userId now)
          (saveExecution (demoExec1 userId now)
            (saveIntent (demoIntent2 userId now)
              (saveIntent (demoIntent1 userId now) s))) := by
    rw [generateDemoData, if_pos h0]
  have hg1 : getIntents userId (saveIntent (demoIntent1 userId now) s)
      = getIntents userId s ++ [demoIntent1 userId now] :=
    getIntents_saveIntent_of_fresh userId _ s (fun j hj => (hifresh j hj).1) rfl
  have hfresh2 : ∀ j ∈ (saveIntent (demoIntent1 userId now) s).intents,
      j.id ≠ (demoIntent2 userId now).id := by
    intro j hj
    rw [intents_saveIntent_of_fresh _ _ (fun x hx => (hifresh x hx).1)] at hj
    rcases List.mem_append.mp hj with hj | hj
    · exact (hifresh j hj).2
    · rw [List.mem_singleton.mp hj]
      exact demoIntent_ids_ne userId now
  have hg2 : getIntents userId
        (saveIntent (demoIntent2 userId now) (saveIntent (demoIntent1 userId now) s))
      = getIntents userId (saveIntent (demoIntent1 userId now) s)
          ++ [demoIntent2 userId now] :=
    getIntents_saveIntent_of_fresh userId _ _ hfresh2 rfl
  have hefresh1 : ∀ x ∈ (saveIntent (demoIntent2 userId now)
        (saveIntent (demoIntent1 userId now) s)).executions,
      x.id ≠ (demoExec1 userId now).id := fun x hx => (hefresh x hx).1
  have hefresh2 : ∀ x ∈ (saveExecution (demoExec1 userId now)
        (saveIntent (demoIntent2 userId now)
          (saveIntent (demoIntent1 userId now) s))).executions,
      x.id ≠ (demoExec2 userId now).id := by
    intro x hx
    rcases mem_executions_saveExecution _ _ hefresh1 x hx with hx | rfl
    · exact (hefresh x hx).2
    · exact demoExec_ids_ne userId now
  refine ⟨?_, ?_, ?_⟩
  · rw [hgen]
    show getIntents userId
        (saveIntent (demoIntent2 userId now) (saveIntent (demoIntent1 userId now) s)) = _
    rw [hg2, hg1, hempty]
    rfl
  · rw [hgen, length_executions_saveExecution_of_fresh _ _ hefresh2,
      length_executions_saveExecution_of_fresh _ _ hefresh1]
    rfl
  · rw [hgen]
    have h2 := getTotalProfit_saveExecution_self (demoExec2 userId now)
      (saveExecution (demoExec1 userId now)
        (saveIntent (demoIntent2 userId now) (saveIntent (demoIntent1 userId now) s)))
    have h1 := getTotalProfit_saveExecution_self (demoExec1 userId now)
      (saveIntent (demoIntent2 userId now) (saveIntent (demoIntent1 userId now) s))
    have hu2 : (demoExec2 userId now).user = userId := rfl
    have hu1 : (demoExec1 userId now).user = userId := rfl
    rw [hu2] at h2
    rw [hu1] at h1
    rw [h2, h1]
    show getTotalProfit userId s + (36.4 : ℚ) + 680 = getTotalProfit userId s + 716.4
    ring_nf

/-- Claim C10: demo seeding runs only for a user with zero stored intents
(seeding two demo intents, two demo executions, and 716.40 of aggregate
profit); for a user with at least one intent it leaves the store
unchanged, and repeated initializations never duplicate the records. -/
theorem generateDemoData_spec (userId : String) (now : ℤ) (s : Store)
    (hifresh : ∀ i ∈ s.intents,
        i.id ≠ (demoIntent1 userId now).id ∧ i.id ≠ (demoIntent2 userId now).id)
    (hefresh : ∀ e ∈ s.executions,
        e.id ≠ (demoExec1 userId now).id ∧ e.id ≠ (demoExec2 userId now).id) :
    (getIntents userId s ≠ [] → generateDemoData userId now s = s)
    ∧ ((getIntents userId s).length = 0 →
        (getIntents userId (generateDemoData userId now s)).length = 2
        ∧ (generateDemoData userId now s).executions.length = s.executions.length + 2
        ∧ getTotalProfit userId (generateDemoData userId now s)
            = getTotalProfit userId s + 716.4)
    ∧ ∀ now2, generateDemoData userId now2 (generateDemoData userId now s)
        = generateDemoData userId now s := by
  have hA : getIntents userId s ≠ [] → generateDemoData userId now s = s := by
    intro h
    rw [generateDemoData, if_neg (by simpa [List.length_eq_zero] using h)]
  refine ⟨hA, ?_, ?_⟩
  · intro h0
    obtain ⟨hview, hlen, hprofit⟩ := generateDemoData_seeds userId now s hifresh hefresh h0
    exact ⟨by rw [hview]; rfl, hlen, hprofit⟩
  · intro now2
    by_cases h0 : (getIntents userId s).length = 0
    · have hview := (generateDemoData_seeds userId now s hifresh hefresh h0).1
      rw [generateDemoData, if_neg]
      rw [hview]
      simp
    · have hne : getIntents userId s ≠ [] := by
        simpa [List.length_eq_zero] using h0
      rw [hA hne, generateDemoData, if_neg (by simpa [List.length_eq_zero] using hne)]

/-- Witness for claim C10 at a concrete input. -/
theorem generateDemoData_spec_witness :
    ((∀ i ∈ clearAllData.intents,
        i.id ≠ (demoIntent1 "alice" 0).id ∧ i.id ≠ (demoIntent2 "alice" 0).id)
      ∧ (∀ e ∈ clearAllData.executions,
          e.id ≠ (demoExec1 "alice" 0).id ∧ e.id ≠ (demoExec2 "alice" 0).id))
    ∧ ((getIntents "alice" clearAllData ≠ [] →
          generateDemoData "alice" 0 clearAllData = clearAllData)
      ∧ ((getIntents "alice" clearAllData).length = 0 →
          (getIntents "alice" (generateDemoData "alice" 0 clearAllData)).length = 2
          ∧ (generateDemoData "alice" 0 clearAllData).executions.length
              = clearAllData.executions.length + 2
          ∧ getTotalProfit "alice" (generateDemoData "alice" 0 clearAllData)
              = getTotalProfit "alice" clearAllData + 716.4)
      ∧ ∀ now2, generateDemoData "alice" now2 (generateDemoData "alice" 0 clearAllData)
          = generateDemoData "alice" 0 clearAllData) :=
  ⟨⟨by simp [clearAllData], by simp [clearAllData]⟩,
   generateDemoData_spec "alice" 0 clearAllData (by simp [clearAllData])
     (by simp [clearAllData])⟩

/-! ### Claim C2

The fold in `syncIntents` simultaneously updates the store and the
in-memory list.  `mergeView` is the projection of that fold onto the
user's view of the store; the simulation lemma `syncFold_spec` connects
the two, and the counting lemmas establish duplicate-freedom. -/

/-- View-level restatement of the `forEach` merge: append each remote
intent whose natural key has no match yet. -/
def mergeView : List StoredIntent → List RemoteIntent → List StoredIntent
  | v, [] => v
  | v, c :: rest =>
      if v.any (matchesKey c) then mergeView v rest
      else mergeView (v ++ [toSyncedIntent c]) rest

theorem matchesKey_toSyncedIntent_self (c : RemoteIntent) :
    matchesKey c (toSyncedIntent c) = true := by
  simp [matchesKey, toSyncedIntent]

theorem matchesKey_congr (c c' : RemoteIntent)
    (h : matchesKey c (toSyncedIntent c') = true) (x : StoredIntent) :
    matchesKey c x = matchesKey c' x := by
  simp [matchesKey, toSyncedIntent] at h
  simp [matchesKey, h.1, h.2]

theorem countP_le_one_of_pairwise (v : List StoredIntent)
    (hp : v.Pairwise (fun a b => ¬(a.token_pair = b.token_pair
      ∧ a.min_profit_threshold = b.min_profit_threshold)))
    (c : RemoteIntent) : v.countP (matchesKey c) ≤ 1 := by
  induction v with
  | nil => simp
  | cons a rest ih =>
      rw [List.pairwise_cons] at hp
      rw [List.countP_cons]
      by_cases h : matchesKey c a = true
      · have h0 : rest.countP (matchesKey c) = 0 := by
          rw [List.countP_eq_zero]
          intro b hb hcb
          apply hp.1 b hb
          simp [matchesKey] at h hcb
          exact ⟨h.1.trans hcb.1.symm, h.2.trans hcb.2.symm⟩
        simp [h, h0]
      · have hf : matchesKey c a = false := by simpa using h
        simpa [hf] using ih hp.2

theorem mergeView_append_form :
    ∀ (remote : List RemoteIntent) (v : List StoredIntent),
      ∃ w, mergeView v remote = v ++ w := by
  intro remote
  induction remote with
  | nil => intro v; exact ⟨[], (List.append_nil v).symm⟩
  | cons c rest ih =>
      intro v
      rw [mergeView]
      by_cases h : v.any (matchesKey c) = true
      · rw [if_pos h]; exact ih v
      · rw [if_neg h]
        obtain ⟨w, hw⟩ := ih (v ++ [toSyncedIntent c])
        exact ⟨toSyncedIntent c :: w,
          by rw [hw, List.append_assoc, List.singleton_append]⟩

theorem countP_le_one_append_sync (v : List StoredIntent) (c' : RemoteIntent)
    (hle : ∀ c : RemoteIntent, v.countP (matchesKey c) ≤ 1)
    (hany : ¬v.any (matchesKey c') = true) :
    ∀ c : RemoteIntent, (v ++ [toSyncedIntent c']).countP (matchesKey c) ≤ 1 := by
  intro c
  rw [List.countP_append]
  by_cases hm : matchesKey c (toSyncedIntent c') = true
  · have h0 : v.countP (matchesKey c) = 0 := by
      have heq : matchesKey c = matchesKey c' := funext (matchesKey_congr c c' hm)
      rw [heq, List.countP_eq_zero]
      intro b hb hcb
      exact hany (List.any_eq_true.mpr ⟨b, hb, hcb⟩)
    simp [h0, hm, List.countP_cons]
  · have hf : matchesKey c (toSyncedIntent c') = false := by simpa using hm
    simpa [hf, List.countP_cons] using hle c

theorem mergeView_count_le :
    ∀ (remote : List RemoteIntent) (v : List StoredIntent),
      (∀ c : RemoteIntent, v.countP (matchesKey c) ≤ 1) →
      ∀ c : RemoteIntent, (mergeView v remote).countP (matchesKey c) ≤ 1 := by
  intro remote
  induction remote with
  | nil => intro v h c; exact h c
  | cons c' rest ih =>
      intro v h c
      rw [mergeView]
      by_cases hany : v.any (matchesKey c') = true
      · rw [if_pos hany]; exact ih v h c
      · rw [if_neg hany]
        exact ih _ (countP_le_one_append_sync v c' h hany) c

theorem mergeView_count_eq :
    ∀ (remote : List RemoteIntent) (v : List StoredIntent),
      (∀ c : RemoteIntent, v.countP (matchesKey c) ≤ 1) →
      ∀ c ∈ remote, (mergeView v remote).countP (matchesKey c) = 1 := by
  intro remote
  induction remote with
  | nil => intro v _ c hc; simp at hc
  | cons c' rest ih =>
      intro v hle c hc
      rw [mergeView]
      by_cases hany : v.any (matchesKey c') = true
      · rw [if_pos hany]
        rcases List.mem_cons.mp hc with rfl | hcr
        · have hpos : 0 < v.countP (matchesKey c) :=
            List.countP_pos_iff.mpr (by simpa [List.any_eq_true] using hany)
          have h1 : v.countP (matchesKey c) = 1 := Nat.le_antisymm (hle c) hpos
          obtain ⟨w, hw⟩ := mergeView_append_form rest v
          have hle2 := mergeView_count_le rest v hle c
          rw [hw] at hle2 ⊢
          rw [List.countP_append] at hle2 ⊢
          omega
        · exact ih v hle c hcr
      · rw [if_neg hany]
        have hle' := countP_le_one_append_sync v c' hle hany
        rcases List.mem_cons.mp hc with rfl | hcr
        · have h1 : (v ++ [toSyncedIntent c]).countP (matchesKey c) = 1 := by
            rw [List.countP_append]
            have h0 : v.countP (matchesKey c) = 0 := by
              rw [List.countP_eq_zero]
              intro b hb hcb
              exact hany (List.any_eq_true.mpr ⟨b, hb, hcb⟩)
            simp [h0, matchesKey_toSyncedIntent_self, List.countP_cons]
          obtain ⟨w, hw⟩ := mergeView_append_form rest (v ++ [toSyncedIntent c])
          have hle2 := mergeView_count_le rest _ hle' c
          rw [hw] at hle2 ⊢
          rw [List.countP_append] at hle2 ⊢
          omega
        · exact ih _ hle' c hcr

theorem syncFold_noop :
    ∀ (remote : List RemoteIntent) (s : Store) (v : List StoredIntent),
      (∀ c ∈ remote, v.any (matchesKey c) = true) →
      remote.foldl syncIntentsStep (s, v) = (s, v) := by
  intro remote
  induction remote with
  | nil => intro s v _; rfl
  | cons c rest ih =>
      intro s v h
      rw [List.foldl_cons]
      have hstep : syncIntentsStep (s, v) c = (s, v) := by
        show (if v.any (matchesKey c) then _ else _) = _
        rw [if_pos (h c (List.mem_cons_self c rest))]
      rw [hstep]
      exact ih s v (fun c' hc' => h c' (List.mem_cons_of_mem c hc'))

theorem syncIntents_noop (userId : String) (remote : List RemoteIntent) (s : Store)
    (h : ∀ c ∈ remote, (getIntents userId s).any (matchesKey c) = true) :
    syncIntents userId remote s = (s, getIntents userId s) :=
  syncFold_noop remote s (getIntents userId s) h

theorem syncFold_spec (userId : String) :
    ∀ (remote : List RemoteIntent) (s : Store) (v : List StoredIntent),
      v = getIntents userId s →
      (∀ c ∈ remote, ∀ i ∈ s.intents, i.id ≠ c.id) →
      (remote.map RemoteIntent.id).Nodup →
      (∀ c ∈ remote, c.user = userId) →
      getIntents userId (remote.foldl syncIntentsStep (s, v)).1 = mergeView v remote := by
  intro remote
  induction remote with
  | nil =>
      intro s v hv _ _ _
      exact hv.symm
  | cons c rest ih =>
      intro s v hv hfresh hnodup huser
      simp only [List.map_cons] at hnodup
      rcases List.nodup_cons.mp hnodup with ⟨hnotin, hnodup2⟩
      rw [List.foldl_cons, mergeView]
      by_cases hany : v.any (matchesKey c) = true
      · rw [if_pos hany]
        have hstep : syncIntentsStep (s, v) c = (s, v) := by
          show (if v.any (matchesKey c) then _ else _) = _
          rw [if_pos hany]
        rw [hstep]
        exact ih s v hv (fun c' hc' => hfresh c' (List.mem_cons_of_mem c hc'))
          hnodup2 (fun c' hc' => huser c' (List.mem_cons_of_mem c hc'))
      · rw [if_neg hany]
        have hstep : syncIntentsStep (s, v) c
            = (saveIntent (toSyncedIntent c) s, v ++ [toSyncedIntent c]) := by
          show (if v.any (matchesKey c) then _ else _) = _
          rw [if_neg hany]
        rw [hstep]
        have hufresh : ∀ j ∈ s.intents, j.id ≠ (toSyncedIntent c).id :=
          fun j hj => hfresh c (List.mem_cons_self c rest) j hj
        have hv' : v ++ [toSyncedIntent c]
            = getIntents userId (saveIntent (toSyncedIntent c) s) := by
          rw [getIntents_saveIntent_of_fresh userId _ s hufresh
            (huser c (List.mem_cons_self c rest)), hv]
        have hfresh' : ∀ c' ∈ rest, ∀ i ∈ (saveIntent (toSyncedIntent c) s).intents,
            i.id ≠ c'.id := by
          intro c' hc' i hi
          rw [intents_saveIntent_of_fresh _ _ hufresh] at hi
          rcases List.mem_append.mp hi with hi | hi
          · exact hfresh c' (List.mem_cons_of_mem c hc') i hi
          · rw [List.mem_singleton.mp hi]
            intro hcc
            apply hnotin
            rw [show (toSyncedIntent c).id = c.id from rfl] at hcc
            rw [hcc]
            exact List.mem_map_of_mem RemoteIntent.id hc'
        exact ih (saveIntent (toSyncedIntent c) s) (v ++ [toSyncedIntent c]) hv'
          hfresh' hnodup2 (fun c' hc' => huser c' (List.mem_cons_of_mem c hc'))

/-- Claim C2: reconciliation is duplicate-free.  Under the natural
well-formedness hypotheses (the user's local intents have pairwise
distinct natural keys, the remote ids are fresh and pairwise distinct,
and the fetched remote intents belong to the user), after `syncIntents`
every remote intent's natural key is matched by exactly one local intent
of the user, and running `syncIntents` again on the resulting store
changes nothing. -/
theorem syncIntents_duplicate_free (userId : String) (remote : List RemoteIntent)
    (s : Store)
    (hkeys : (getIntents userId s).Pairwise
      (fun a b => ¬(a.token_pair = b.token_pair
        ∧ a.min_profit_threshold = b.min_profit_threshold)))
    (hfresh : ∀ c ∈ remote, ∀ i ∈ s.intents, i.id ≠ c.id)
    (hnodup : (remote.map RemoteIntent.id).Nodup)
    (huser : ∀ c ∈ remote, c.user = userId) :
    (∀ c ∈ remote,
        (getIntents userId (syncIntents userId remote s).1).countP (matchesKey c) = 1)
    ∧ syncIntents userId remote (syncIntents userId remote s).1
        = ((syncIntents userId remote s).1,
            getIntents userId (syncIntents userId remote s).1) := by
  have hle : ∀ c : RemoteIntent, (getIntents userId s).countP (matchesKey c) ≤ 1 :=
    countP_le_one_of_pairwise _ hkeys
  have hview : getIntents userId (syncIntents userId remote s).1
      = mergeView (getIntents userId s) remote :=
    syncFold_spec userId remote s (getIntents userId s) rfl hfresh hnodup huser
  have hcount : ∀ c ∈ remote,
      (getIntents userId (syncIntents userId remote s).1).countP (matchesKey c) = 1 := by
    intro c hc
    rw [hview]
    exact mergeView_count_eq remote _ hle c hc
  refine ⟨hcount, ?_⟩
  apply syncIntents_noop
  intro c hc
  have hpos : 0 < (getIntents userId (syncIntents userId remote s).1).countP (matchesKey c) := by
    rw [hcount c hc]
    norm_num
  obtain ⟨x, hx, hpx⟩ := List.countP_pos_iff.mp hpos
  exact List.any_eq_true.mpr ⟨x, hx, hpx⟩

/-- Concrete local store used by the witness for claim C2. -/
def c2Store : Store :=
  { intents := [⟨"local-1", "alice", "ETH/USDC", 1.5, .active, 0, .demo⟩]
    executions := []
    profits := [] }

/-- Concrete remote intent list used by the witness for claim C2: the
same natural key as the already-stored local intent. -/
def c2Remote : List RemoteIntent :=
  [⟨"remote-1", "alice", "ETH/USDC", 1.5, .active, 5⟩]

/-- Witness for claim C2 at a concrete input. -/
theorem syncIntents_duplicate_free_witness :
    ((getIntents "alice" c2Store).Pairwise
        (fun a b => ¬(a.token_pair = b.token_pair
          ∧ a.min_profit_threshold = b.min_profit_threshold))
      ∧ (∀ c ∈ c2Remote, ∀ i ∈ c2Store.intents, i.id ≠ c.id)
      ∧ (c2Remote.map RemoteIntent.id).Nodup
      ∧ (∀ c ∈ c2Remote, c.user = "alice"))
    ∧ ((∀ c ∈ c2Remote,
          (getIntents "alice" (syncIntents "alice" c2Remote c2Store).1).countP
            (matchesKey c) = 1)
      ∧ syncIntents "alice" c2Remote (syncIntents "alice" c2Remote c2Store).1
          = ((syncIntents "alice" c2Remote c2Store).1,
              getIntents "alice" (syncIntents "alice" c2Remote c2Store).1)) :=
  ⟨⟨by simp [c2Store, getIntents, List.filter_cons],
    by simp [c2Store, c2Remote],
    by simp [c2Remote],
    by simp [c2Remote]⟩,
   syncIntents_duplicate_free "alice" c2Remote c2Store
     (by simp [c2Store, getIntents, List.filter_cons])
     (by simp [c2Store, c2Remote])
     (by simp [c2Remote])
     (by simp [c2Remote])⟩

end ArbitrageAI
